import Mathlib

/-!
Verification of the `smus_dev` administrative scripts.

The repository is a set of Python scripts driving a remote data-catalog
API.  We embed the pure logic of the scripts shallowly:

* JSON object content ("a flat mapping of field name to value") is an
  insertion-ordered association list `JMap`.
* Serialized JSON text is modelled by its decode result: the `json`
  module is external to the repository, so a wire string is either
  `JStr.enc m` (text that `json.loads` decodes to the flat mapping `m`,
  in particular any output of `json.dumps m`) or `JStr.bad s` (text on
  which `json.loads` raises).
* Remote API calls are modelled by passing their responses (or the
  error they raise) as explicit inputs; raising an exception is
  modelled with `Except`.
-/

namespace Smus

/-- A decoded flat JSON object: insertion-ordered key/value pairs.
Objects produced by Python's `json.loads` / dict literals have pairwise
distinct keys; theorems that need this carry it as a hypothesis. -/
abbrev JMap := List (String × String)

/-- Serialized JSON text, identified by its decode result (the `json`
library itself is external to the repository). -/
inductive JStr where
  | enc : JMap → JStr
  | bad : String → JStr
deriving Repr, DecidableEq

namespace json

/-- `json.dumps` on a flat mapping. -/
def dumps (m : JMap) : JStr := .enc m

/-- `json.loads` on wire text: `none` models the raised decode error. -/
def loads : JStr → Option JMap
  | .enc m => some m
  | .bad _ => none

end json

/-- One entry of `a` after `{**a, **b}`: its value is overridden by
`b`'s when `b` binds the same key. -/
def updEntry (b : JMap) (kv : String × String) : String × String :=
  match b.lookup kv.1 with
  | some v => (kv.1, v)
  | none => kv

/-- Python's `{**a, **b}`: keys of `a` in order (values overridden by
`b` where present), followed by the keys of `b` not present in `a`,
in `b`'s order.  The candidate (`b`) wins on every shared key. -/
def dictMerge (a b : JMap) : JMap :=
  a.map (updEntry b) ++ b.filter (fun kv => (a.lookup kv.1).isNone)

/-- A form's `content` field as it travels through the scripts: either
wire text or a still-decoded Python dict. -/
inductive Content where
  | text : JStr → Content
  | dict : JMap → Content
deriving Repr, DecidableEq

/-- The key under which a fetched form carries its type: the legacy
`typeName` key or the current `typeIdentifier` key
(`smus_scripts.py` lines 245-247 renames the former to the latter). -/
inductive TypeKey where
  | typeName : String → TypeKey
  | typeIdentifier : String → TypeKey
deriving Repr, DecidableEq

/-- A metadata form as returned in an asset's `formsOutput`. -/
structure Form where
  formName : String
  typeKey : TypeKey
  content : Content
deriving Repr, DecidableEq

/-- `form.get("typeIdentifier")`: `some` only when the form carries the
current key. -/
def Form.getTypeIdentifier (f : Form) : Option String :=
  match f.typeKey with
  | .typeIdentifier v => some v
  | .typeName _ => none

/-- An asset as returned by `get_asset`: name, optional description and
the fetched form list (`smus_scripts.py` lines 27-38 pass the service
response through unchanged). -/
structure Asset where
  name : String
  description : Option String
  formsOutput : List Form
deriving Repr, DecidableEq

/-- The candidate form handed to `add_metadata_form`
(`formName`, `typeIdentifier`, `content`). -/
structure CandidateForm where
  formName : String
  typeIdentifier : String
  content : Content
deriving Repr, DecidableEq

/-- The full revision submitted through `create_asset_revision`
(`smus_scripts.py` lines 280-288): name, complete form list, description. -/
structure Revision where
  name : String
  formsInput : List Form
  description : String
deriving Repr, DecidableEq

/-- Normalization of one fetched form (`smus_scripts.py` lines 245-251):
rename `typeName` to `typeIdentifier` when present, and serialize dict
content to text. -/
def normalize_form (f : Form) : Form :=
  let f1 :=
    match f.typeKey with
    | .typeName v => { f with typeKey := .typeIdentifier v }
    | .typeIdentifier _ => f
  match f1.content with
  | .dict m => { f1 with content := .text (json.dumps m) }
  | .text _ => f1

/-- The normalization loop over `asset_forms` (lines 243-252). -/
def normalize_forms (fs : List Form) : List Form := fs.map normalize_form

/-- Parsing the candidate's content (`smus_scripts.py` lines 230-237):
`json.loads` when it is a string (decode failure raises a
`ValueError`), `deepcopy` when it is already a dict. -/
def parse_new_content : Content → Except String JMap
  | .text s =>
    match json.loads s with
    | some m => .ok m
    | none => .error "Erro ao decodificar content"
  | .dict m => .ok m

/-- The lenient decode of an existing form's content
(lines 258-261): any `json.loads` failure is replaced by `{}`. -/
def load_existing_content : Content → JMap
  | .text s => (json.loads s).getD []
  | .dict _ => []

/-- The in-place update of a matched form (lines 258-264): decode its
existing content leniently, shallow-merge the candidate's keys over it
and re-serialize.  Only the `content` field changes. -/
def updated_form (new_content : JMap) (f : Form) : Form :=
  { f with content := .text (json.dumps
      (dictMerge (load_existing_content f.content) new_content)) }

/-- The new form appended when no existing form matches
(lines 268-273). -/
def inserted_form (new_content : JMap) (target_type form_name : String) :
    Form :=
  { formName := form_name
    typeKey := .typeIdentifier target_type
    content := .text (json.dumps new_content) }

/-- The update-or-insert loop of `add_metadata_form`
(lines 254-273): walk the normalized forms, rewrite the content of the
first form whose `typeIdentifier` equals the target (shallow merge,
candidate wins) and stop; if no form matches, append a new form built
from the candidate. -/
def upsert_form (new_content : JMap) (target_type form_name : String) :
    List Form → List Form
  | [] => [inserted_form new_content target_type form_name]
  | f :: rest =>
    if f.getTypeIdentifier == some target_type then
      updated_form new_content f :: rest
    else
      f :: upsert_form new_content target_type form_name rest

/-- The complete form-list transformation applied by
`add_metadata_form`: normalize the fetched forms, then update or
insert the candidate. -/
def merge_forms (new_content : JMap) (cand : CandidateForm)
    (forms : List Form) : List Form :=
  upsert_form new_content cand.typeIdentifier cand.formName
    (normalize_forms forms)

/-- `add_metadata_form` (`smus_scripts.py` lines 218-290), from the
fetched asset to the submitted revision.  A raised exception is
`Except.error`; in that case no call to `create_asset_revision` is
made and the asset is left unchanged. -/
def add_metadata_form (actual_asset : Asset)
    (metadata_form_to_add : CandidateForm) : Except String Revision :=
  match parse_new_content metadata_form_to_add.content with
  | .error e => .error e
  | .ok new_content =>
    .ok { name := actual_asset.name
          formsInput := merge_forms new_content metadata_form_to_add
            actual_asset.formsOutput
          description := (actual_asset.description).getD "" }

/-- The first form matching a type identifier
(the one the loop at lines 256-266 updates). -/
def findMatch (forms : List Form) (target_type : String) : Option Form :=
  forms.find? (fun f => f.getTypeIdentifier == some target_type)

/-- How many forms of a list carry a given type identifier. -/
def countMatches (forms : List Form) (target_type : String) : Nat :=
  forms.countP (fun f => f.getTypeIdentifier == some target_type)

/-! ### Paginated lister (`smus_scripts.py` lines 41-73) -/

/-- `item["assetItem"]` of a search response item. -/
structure AssetItemRef where
  identifier : String
deriving Repr, DecidableEq

/-- One item of a search response page. -/
structure SearchItem where
  assetItem : AssetItemRef
deriving Repr, DecidableEq

/-- One response page of `datazone_client.search`: the extracted items
and the optional continuation token. -/
structure Page where
  items : List SearchItem
  nextToken : Option String
deriving Repr, DecidableEq

/-- `list_assets_ids` (`smus_scripts.py` lines 41-73), run against the
sequence of responses the service hands back: each call to `search`
either raises (`Except.error`, propagated uncaught since the loop has
no handler) or returns the next page; identifiers are accumulated in
page order and the loop stops at the first page without a
continuation token. -/
def list_assets_ids : List (Except String Page) → Except String (List String)
  | [] => .ok []
  | r :: rest =>
    match r with
    | .error e => .error e
    | .ok page =>
      let ids := page.items.map (fun item => item.assetItem.identifier)
      match page.nextToken with
      | none => .ok ids
      | some _ =>
        match list_assets_ids rest with
        | .error e => .error e
        | .ok more => .ok (ids ++ more)

/-! ### Changeset polling (`republish_asset.py` lines 29-49) -/

/-- `status in ['FAILED', 'CANCELLED']`. -/
def terminal_failure (st : Option String) : Bool :=
  st == some "FAILED" || st == some "CANCELLED"

/-- The message of the exception raised when the polling loop ends
without reaching `ACTIVE`. -/
def timeout_message : String := "Timeout aguardando conclusao do changeset"

/-- The polling loop of `_aguardar_changeset_completion`, instrumented
with the number of `get_listing` calls issued.  `poll i` is the result
of the `i`-th `get_listing` call (`Except.error` when it raises, else
`response.get('status')`).  Each iteration sleeps one second, so the
wall-clock guard `time.time() - start_time < timeout` admits `timeout`
iterations, modelled as fuel.  On `ACTIVE` the function returns `True`;
a `FAILED`/`CANCELLED` status raises an exception inside the `try`,
which the loop's own `except` catches, printing and breaking — and an
API error breaks the same way — after which the function raises the
timeout exception; exhausting the budget raises it too. -/
def aguardar_loop (poll : Nat → Except String (Option String)) :
    Nat → Nat → Except String Bool × Nat
  | 0, _ => (.error timeout_message, 0)
  | fuel + 1, i =>
    match poll i with
    | .error _ => (.error timeout_message, 1)
    | .ok st =>
      if st == some "ACTIVE" then (.ok true, 1)
      else if terminal_failure st then (.error timeout_message, 1)
      else
        let r := aguardar_loop poll fuel (i + 1)
        (r.1, r.2 + 1)

/-- `_aguardar_changeset_completion` (`republish_asset.py` lines
29-49): the result of the polling loop. -/
def aguardar_changeset_completion (poll : Nat → Except String (Option String))
    (timeout : Nat) : Except String Bool :=
  (aguardar_loop poll timeout 0).1

/-- The number of `get_listing` polls the loop issues. -/
def aguardar_polls_issued (poll : Nat → Except String (Option String))
    (timeout : Nat) : Nat :=
  (aguardar_loop poll timeout 0).2

/-! ### Glossary creation (`smus_scripts.py` lines 168-215) -/

/-- Outcome of a `create_glossary` / `create_glossary_term` call: it
either succeeds or raises a `ClientError` carrying an error code. -/
inductive ApiOutcome where
  | success
  | clientError : String → ApiOutcome
deriving Repr, DecidableEq

/-- `add_glossary` (`smus_scripts.py` lines 168-187): a
`ConflictException` is caught and reported informationally (the
returned string is the printed message); any other `ClientError` is
re-raised. -/
def add_glossary (glossary_name : String) (outcome : ApiOutcome) :
    Except String String :=
  match outcome with
  | .success => .ok ("Glossario " ++ glossary_name ++ " adicionado")
  | .clientError code =>
    if code == "ConflictException" then
      .ok ("Glossario " ++ glossary_name ++ " ja existe")
    else
      .error code

/-- `add_glossary_term` (`smus_scripts.py` lines 190-215): same
conflict-as-success handling as `add_glossary`. -/
def add_glossary_term (term_name : String) (outcome : ApiOutcome) :
    Except String String :=
  match outcome with
  | .success => .ok ("Termo de negocio " ++ term_name ++ " adicionado")
  | .clientError code =>
    if code == "ConflictException" then
      .ok ("Termo de negocio " ++ term_name ++ " ja existe")
    else
      .error code

/-! ### Metadata backup (`smus_scripts.py` lines 76-129,
`backup_metadata.py` lines 6-22) -/

/-- `filter_content_output` (`smus_scripts.py` lines 76-94): collect
the contents of the forms whose `formName` matches; when none matches,
print a warning and substitute an empty mapping; otherwise
`json.loads` the first match (an undecodable or dict-typed content
makes `json.loads` raise, uncaught here). -/
def filter_content_output (asset_data : Asset) (form_name : String) :
    Except String JMap :=
  match (asset_data.formsOutput.filter
      (fun f => f.formName == form_name)).head? with
  | none => .ok []
  | some f =>
    match f.content with
    | .text s =>
      match json.loads s with
      | some m => .ok m
      | none => .error "json decode error"
    | .dict _ => .error "json decode error"

/-- `create_metadata_df` (`smus_scripts.py` lines 97-129): one output
row per asset, the horizontal merge of the `seguranca_privacidade` and
`dominio_de_dados` form contents, the `tableName` field of
`GlueTableForm` when present, and a `Descricao` column holding the
asset's description (defaulting to the empty string). -/
def create_metadata_df (asset_data : Asset) : Except String JMap := do
  let sp ← filter_content_output asset_data "seguranca_privacidade"
  let dd ← filter_content_output asset_data "dominio_de_dados"
  let tn ← filter_content_output asset_data "GlueTableForm"
  let merged := sp ++ dd
  let merged :=
    match tn.lookup "tableName" with
    | some v => merged ++ [("tableName", v)]
    | none => merged
  pure (merged ++ [("Descricao", (asset_data.description).getD "")])

/-- The driver loop of `backup_metadata.py` (lines 6-22): build one
row per fetched asset, in listing order, concatenating into the output
table; any raised error aborts the run. -/
def backup_main : List Asset → Except String (List JMap)
  | [] => .ok []
  | a :: rest =>
    match create_metadata_df a with
    | .error e => .error e
    | .ok row =>
      match backup_main rest with
      | .error e => .error e
      | .ok rows => .ok (row :: rows)

/-- The column set of the written CSV: the union of the field names of
all rows, in order of first appearance (pandas `concat` column
union). -/
def csv_columns (rows : List JMap) : List String :=
  rows.foldl
    (fun acc row =>
      acc ++ (row.map Prod.fst).filter (fun c => !acc.contains c)) []

/-! ### Asset republisher (`republish_asset.py` lines 51-95) -/

/-- The remote interactions one `republicar_asset` call observes: the
outcome of `create_listing_change_set` (the changeset id, or the
exception it raises) and the poll results consumed by
`_aguardar_changeset_completion`. -/
structure RepubEnv where
  create_listing_change_set : Except String String
  poll : Nat → Except String (Option String)

/-- `republicar_asset` (`republish_asset.py` lines 51-69): create a
publish changeset and wait for completion; any raised exception is
caught, printed and turned into `False`.  The timeout defaults
to 300 seconds. -/
def republicar_asset (env : RepubEnv) : Bool :=
  match env.create_listing_change_set with
  | .error _ => false
  | .ok _changeset_id =>
    match aguardar_changeset_completion env.poll 300 with
    | .ok _ => true
    | .error _ => false

/-- `main` of `republish_asset.py` (lines 71-95), with `env n` the
remote interactions of the `n`-th `republicar_asset` call.  The result
carries the trace of asset ids a publish changeset is created for (in
call order) and the reported success count.  `assets_ids[0]` on an
empty listing raises an `IndexError`; otherwise the first asset is
republished once before the loop (call number `0`, result discarded)
and every listed asset once inside the loop (call numbers `1, 2, ...`,
only these counted). -/
def republish_main (assets_ids : List String) (env : Nat → RepubEnv) :
    Except String (List String × Nat) :=
  match assets_ids with
  | [] => .error "IndexError: list index out of range"
  | first :: _ =>
    let loop_results :=
      (List.range assets_ids.length).map
        (fun i => republicar_asset (env (i + 1)))
    .ok (first :: assets_ids, loop_results.count true)

/-! ### Association-list lemmas -/

theorem lookup_cons (k : String) (x : String × String) (rest : JMap) :
    List.lookup k (x :: rest) = if k == x.1 then some x.2 else List.lookup k rest := by
  obtain ⟨k0, v0⟩ := x
  simp [List.lookup]; split <;> simp_all

theorem lookup_append (l1 l2 : JMap) (k : String) :
    (l1 ++ l2).lookup k =
      match l1.lookup k with
      | some v => some v
      | none => l2.lookup k := by
  induction l1 with
  | nil => simp
  | cons kv rest ih =>
    by_cases h : k == kv.1 <;> simp [lookup_cons, h, ih]

theorem updEntry_fst (b : JMap) (kv : String × String) :
    (updEntry b kv).1 = kv.1 := by
  unfold updEntry; split <;> rfl

theorem lookup_map_updEntry (a b : JMap) (k : String) :
    (a.map (updEntry b)).lookup k =
      match a.lookup k with
      | some v => some ((b.lookup k).getD v)
      | none => none := by
  induction a with
  | nil => simp
  | cons kv rest ih =>
    by_cases h : k == kv.1
    · have hk : k = kv.1 := by simpa using h
      subst hk
      unfold updEntry
      cases hb : b.lookup kv.1 <;> simp [lookup_cons, hb]
    · simp [lookup_cons, updEntry_fst, h, ih]

theorem lookup_filter_aNone (a b : JMap) (k : String) :
    (b.filter (fun kv => (a.lookup kv.1).isNone)).lookup k =
      if (a.lookup k).isNone then b.lookup k else none := by
  induction b with
  | nil => simp
  | cons kv rest ih =>
    by_cases h : k == kv.1
    · have hk : k = kv.1 := by simpa using h
      subst hk
      cases ha : (a.lookup kv.1).isNone <;>
        simp [List.filter_cons, ha, lookup_cons, ih]
    · cases hp : (a.lookup kv.1).isNone <;>
        simp [List.filter_cons, hp, lookup_cons, h, ih]

/-- The merged mapping gives every key `b` binds its `b`-value:
the candidate wins on every shared key. -/
theorem dictMerge_lookup_some (a b : JMap) (k v : String)
    (hb : b.lookup k = some v) : (dictMerge a b).lookup k = some v := by
  unfold dictMerge
  rw [lookup_append, lookup_map_updEntry, lookup_filter_aNone]
  cases ha : a.lookup k <;> simp [ha, hb]

/-- Keys `b` does not bind keep their value from `a`. -/
theorem dictMerge_lookup_none (a b : JMap) (k : String)
    (hb : b.lookup k = none) : (dictMerge a b).lookup k = a.lookup k := by
  unfold dictMerge
  rw [lookup_append, lookup_map_updEntry, lookup_filter_aNone]
  cases ha : a.lookup k <;> simp [ha, hb]

theorem dictMerge_def (a b : JMap) :
    dictMerge a b =
      a.map (updEntry b) ++ b.filter (fun kv => (a.lookup kv.1).isNone) := rfl

theorem lookup_eq_of_mem_nodup (l : JMap) (kv : String × String)
    (hnd : (l.map Prod.fst).Nodup) (hm : kv ∈ l) :
    l.lookup kv.1 = some kv.2 := by
  induction l with
  | nil => simp at hm
  | cons x rest ih =>
    simp only [List.map_cons, List.nodup_cons] at hnd
    rcases List.mem_cons.mp hm with rfl | hm2
    · simp [lookup_cons]
    · have hne : kv.1 ≠ x.1 := by
        intro he
        exact hnd.1 (he ▸ List.mem_map_of_mem Prod.fst hm2)
      simp [lookup_cons, hne, ih hnd.2 hm2]

theorem updEntry_updEntry (b : JMap) (kv : String × String) :
    updEntry b (updEntry b kv) = updEntry b kv := by
  cases hb : b.lookup kv.1 with
  | none =>
    have h : updEntry b kv = kv := by unfold updEntry; rw [hb]
    rw [h, h]
  | some v =>
    have h : updEntry b kv = (kv.1, v) := by unfold updEntry; rw [hb]
    rw [h]
    unfold updEntry
    simp [hb]

theorem map_eq_self_of_mem {α : Type} (l : List α) (f : α → α)
    (h : ∀ x ∈ l, f x = x) : l.map f = l := by
  induction l with
  | nil => rfl
  | cons x rest ih =>
    simp only [List.map_cons, h x (List.mem_cons_self x rest),
      ih (fun y hy => h y (List.mem_cons_of_mem x hy))]

/-- Remerging the candidate over an already-merged mapping changes
nothing: the candidate's keys overwrite their own values. -/
theorem dictMerge_absorb (a b : JMap) (hnd : (b.map Prod.fst).Nodup) :
    dictMerge (dictMerge a b) b = dictMerge a b := by
  have hcomp : updEntry b ∘ updEntry b = updEntry b :=
    funext (updEntry_updEntry b)
  have hmap : (dictMerge a b).map (updEntry b) = dictMerge a b := by
    rw [dictMerge_def a b, List.map_append, List.map_map, hcomp]
    congr 1
    apply map_eq_self_of_mem
    intro kv hkv
    have hmem : kv ∈ b := List.mem_of_mem_filter hkv
    have hlk := lookup_eq_of_mem_nodup b kv hnd hmem
    unfold updEntry
    rw [hlk]
  have hfil : b.filter (fun kv => ((dictMerge a b).lookup kv.1).isNone) = [] := by
    apply List.filter_eq_nil_iff.mpr
    intro kv hkv
    have hlk := lookup_eq_of_mem_nodup b kv hnd hkv
    have := dictMerge_lookup_some a b kv.1 kv.2 hlk
    simp [this]
  rw [dictMerge_def (dictMerge a b) b, hfil, hmap, List.append_nil]

theorem dictMerge_nil_left (b : JMap) : dictMerge [] b = b := by
  rw [dictMerge_def]
  simp [List.filter_eq_self]

/-! ### Upsert and normalization lemmas -/

theorem getTypeIdentifier_eq_some (f : Form) (t : String) :
    f.getTypeIdentifier = some t ↔ f.typeKey = .typeIdentifier t := by
  cases h : f.typeKey <;> simp [Form.getTypeIdentifier, h]

theorem updated_form_getTypeIdentifier (nc : JMap) (f : Form) :
    (updated_form nc f).getTypeIdentifier = f.getTypeIdentifier := rfl

/-- When no form matches, the loop leaves every form untouched and
appends exactly one new form built from the candidate. -/
theorem upsert_of_none (nc : JMap) (t n : String) (fs : List Form)
    (h : findMatch fs t = none) :
    upsert_form nc t n fs = fs ++ [inserted_form nc t n] := by
  induction fs with
  | nil => rfl
  | cons f rest ih =>
    unfold findMatch at h
    rw [List.find?_cons] at h
    cases hp : (f.getTypeIdentifier == some t) with
    | true => rw [hp] at h; simp at h
    | false =>
      rw [hp] at h
      simp only [upsert_form, hp, Bool.false_eq_true, if_false]
      rw [ih h]
      rfl

/-- When some form matches, the loop rewrites the first match in place
(content only) and keeps everything else: the first match of the
output is the updated form, and the match count, the length and the
type-identifier sequence are unchanged. -/
theorem upsert_of_some (nc : JMap) (t n : String) (fs : List Form) (f0 : Form)
    (h : findMatch fs t = some f0) :
    findMatch (upsert_form nc t n fs) t = some (updated_form nc f0) ∧
    countMatches (upsert_form nc t n fs) t = countMatches fs t ∧
    (upsert_form nc t n fs).length = fs.length ∧
    (upsert_form nc t n fs).map Form.getTypeIdentifier =
      fs.map Form.getTypeIdentifier := by
  induction fs with
  | nil => simp [findMatch] at h
  | cons f rest ih =>
    unfold findMatch at h
    rw [List.find?_cons] at h
    cases hp : (f.getTypeIdentifier == some t) with
    | true =>
      rw [hp] at h
      simp only [Option.some.injEq] at h
      subst h
      refine ⟨?_, ?_, ?_, ?_⟩
      · simp [upsert_form, hp, findMatch, List.find?_cons,
          updated_form_getTypeIdentifier]
      · simp [upsert_form, hp, countMatches, List.countP_cons,
          updated_form_getTypeIdentifier]
      · simp [upsert_form, hp]
      · simp [upsert_form, hp, updated_form_getTypeIdentifier]
    | false =>
      rw [hp] at h
      obtain ⟨h1, h2, h3, h4⟩ := ih h
      refine ⟨?_, ?_, ?_, ?_⟩
      · simpa [upsert_form, hp, findMatch, List.find?_cons] using h1
      · simpa [upsert_form, hp, countMatches, List.countP_cons] using h2
      · simpa [upsert_form, hp] using h3
      · simpa [upsert_form, hp] using h4

theorem normalize_form_idem (f : Form) :
    normalize_form (normalize_form f) = normalize_form f := by
  obtain ⟨n, tk, c⟩ := f
  cases tk <;> cases c <;> rfl

theorem normalize_form_fixed (f : Form) (v : String) (s : JStr)
    (hk : f.typeKey = .typeIdentifier v) (hc : f.content = .text s) :
    normalize_form f = f := by
  obtain ⟨n, tk, c⟩ := f
  simp only at hk hc
  subst hk
  subst hc
  rfl

theorem load_dumps (m : JMap) :
    load_existing_content (.text (json.dumps m)) = m := rfl

theorem dictMerge_self (nc : JMap) (hnd : (nc.map Prod.fst).Nodup) :
    dictMerge nc nc = nc := by
  have h := dictMerge_absorb [] nc hnd
  rwa [dictMerge_nil_left] at h

theorem updated_form_idem (nc : JMap) (f : Form)
    (hnd : (nc.map Prod.fst).Nodup) :
    updated_form nc (updated_form nc f) = updated_form nc f := by
  unfold updated_form
  simp only [load_dumps]
  rw [dictMerge_absorb _ _ hnd]

theorem updated_inserted (nc : JMap) (t n : String)
    (hnd : (nc.map Prod.fst).Nodup) :
    updated_form nc (inserted_form nc t n) = inserted_form nc t n := by
  unfold updated_form inserted_form
  simp only [load_dumps]
  rw [dictMerge_self nc hnd]

theorem inserted_matches (nc : JMap) (t n : String) :
    ((inserted_form nc t n).getTypeIdentifier == some t) = true := by
  simp [inserted_form, Form.getTypeIdentifier]

/-- Re-applying the update-or-insert loop with the same candidate
changes nothing. -/
theorem upsert_idem (nc : JMap) (t n : String)
    (hnd : (nc.map Prod.fst).Nodup) (fs : List Form) :
    upsert_form nc t n (upsert_form nc t n fs) = upsert_form nc t n fs := by
  induction fs with
  | nil =>
    show upsert_form nc t n [inserted_form nc t n] = [inserted_form nc t n]
    simp only [upsert_form, inserted_matches, if_true]
    rw [updated_inserted nc t n hnd]
  | cons f rest ih =>
    cases hp : (f.getTypeIdentifier == some t) with
    | true =>
      simp only [upsert_form, hp, if_true, updated_form_getTypeIdentifier]
      rw [updated_form_idem nc f hnd]
    | false =>
      simp only [upsert_form, hp, Bool.false_eq_true, if_false]
      rw [ih]

theorem normalize_forms_fixed (gs : List Form)
    (h : ∀ g ∈ gs, normalize_form g = g) : normalize_forms gs = gs :=
  map_eq_self_of_mem gs normalize_form h

theorem upsert_forms_fixed (nc : JMap) (t n : String) (gs : List Form)
    (h : ∀ g ∈ gs, normalize_form g = g) :
    ∀ g ∈ upsert_form nc t n gs, normalize_form g = g := by
  induction gs with
  | nil =>
    intro g hg
    simp only [upsert_form, List.mem_singleton] at hg
    subst hg
    exact normalize_form_fixed _ t (json.dumps nc) rfl rfl
  | cons f rest ih =>
    intro g hg
    cases hp : (f.getTypeIdentifier == some t) with
    | true =>
      simp only [upsert_form, hp, if_true] at hg
      rcases List.mem_cons.mp hg with hgf | hg2
      · subst hgf
        have hf : f.typeKey = .typeIdentifier t :=
          (getTypeIdentifier_eq_some f t).mp (by simpa using hp)
        exact normalize_form_fixed _ t
          (json.dumps (dictMerge (load_existing_content f.content) nc)) hf rfl
      · exact h g (List.mem_cons_of_mem f hg2)
    | false =>
      simp only [upsert_form, hp, Bool.false_eq_true, if_false] at hg
      rcases List.mem_cons.mp hg with hgf | hg2
      · exact h g (hgf ▸ List.mem_cons_self f rest)
      · exact ih (fun y hy => h y (List.mem_cons_of_mem f hy)) g hg2

/-- The form list produced by one merge is already normalized:
normalizing it again changes nothing. -/
theorem normalize_forms_upsert (nc : JMap) (t n : String) (fs : List Form) :
    normalize_forms (upsert_form nc t n (normalize_forms fs)) =
      upsert_form nc t n (normalize_forms fs) :=
  normalize_forms_fixed _ (upsert_forms_fixed nc t n _ (fun g hg => by
    obtain ⟨f, _, rfl⟩ := List.mem_map.mp hg
    exact normalize_form_idem f))

theorem add_metadata_form_ok (asset : Asset) (cand : CandidateForm) (nc : JMap)
    (hparse : parse_new_content cand.content = .ok nc) :
    add_metadata_form asset cand =
      .ok { name := asset.name
            formsInput := merge_forms nc cand asset.formsOutput
            description := (asset.description).getD "" } := by
  unfold add_metadata_form
  rw [hparse]

theorem merge_forms_def (nc : JMap) (cand : CandidateForm) (forms : List Form) :
    merge_forms nc cand forms =
      upsert_form nc cand.typeIdentifier cand.formName
        (normalize_forms forms) := rfl

theorem inserted_form_getTypeIdentifier (nc : JMap) (t n : String) :
    (inserted_form nc t n).getTypeIdentifier = some t := rfl

/-! ### Claim theorems for `add_metadata_form` -/

/-- C1: for every asset whose fetched form list contains (after the
normalization every fetched form undergoes) exactly one form whose
`typeIdentifier` equals the candidate's, `add_metadata_form` submits a
revision whose form list still contains exactly one form with that
`typeIdentifier`; that form's content is the serialized shallow
key-merge of the decoded existing content with the decoded candidate
content, where the candidate wins on every key it binds and every
other key keeps its existing value. -/
theorem C1_update_of_matching_form
    (asset : Asset) (cand : CandidateForm) (nc : JMap) (f0 : Form)
    (hparse : parse_new_content cand.content = .ok nc)
    (hfind : findMatch (normalize_forms asset.formsOutput) cand.typeIdentifier
      = some f0)
    (huniq : countMatches (normalize_forms asset.formsOutput)
      cand.typeIdentifier = 1) :
    ∃ rev, add_metadata_form asset cand = .ok rev ∧
      countMatches rev.formsInput cand.typeIdentifier = 1 ∧
      findMatch rev.formsInput cand.typeIdentifier = some (updated_form nc f0) ∧
      (updated_form nc f0).content =
        .text (json.dumps (dictMerge (load_existing_content f0.content) nc)) ∧
      (∀ k v, nc.lookup k = some v →
        (dictMerge (load_existing_content f0.content) nc).lookup k = some v) ∧
      (∀ k, nc.lookup k = none →
        (dictMerge (load_existing_content f0.content) nc).lookup k =
          (load_existing_content f0.content).lookup k) := by
  obtain ⟨h1, h2, _h3, _h4⟩ :=
    upsert_of_some nc cand.typeIdentifier cand.formName _ f0 hfind
  refine ⟨_, add_metadata_form_ok asset cand nc hparse, ?_, ?_, rfl, ?_, ?_⟩
  · show countMatches (merge_forms nc cand asset.formsOutput) _ = 1
    rw [merge_forms_def, h2, huniq]
  · show findMatch (merge_forms nc cand asset.formsOutput) _ = _
    rw [merge_forms_def, h1]
  · intro k v hk
    exact dictMerge_lookup_some _ nc k v hk
  · intro k hk
    exact dictMerge_lookup_none _ nc k hk

/-- C2: every revision `add_metadata_form` submits carries the asset's
name and its description exactly as returned by the preceding
`get_asset` call (an absent description is submitted as the empty
string) — the merge changes only the form list. -/
theorem C2_revision_preserves_name_and_description
    (asset : Asset) (cand : CandidateForm) (rev : Revision)
    (hrev : add_metadata_form asset cand = .ok rev) :
    rev.name = asset.name ∧
    (∀ d, asset.description = some d → rev.description = d) ∧
    (asset.description = none → rev.description = "") := by
  unfold add_metadata_form at hrev
  cases hp : parse_new_content cand.content with
  | error e => rw [hp] at hrev; cases hrev
  | ok nc =>
    rw [hp] at hrev
    cases hrev
    refine ⟨rfl, ?_, ?_⟩
    · intro d hd
      simp [hd]
    · intro hd
      simp [hd]

/-- C3: `add_metadata_form` raises if and only if the candidate form's
content is text that fails to decode, and then no revision is
submitted; a decode failure of an existing form's content never
raises — it is treated as an empty mapping for the merge. -/
theorem C3_error_iff_candidate_decode_failure
    (asset : Asset) (cand : CandidateForm) :
    ((∃ e, add_metadata_form asset cand = .error e) ↔
      (∃ s, cand.content = .text s ∧ json.loads s = none)) ∧
    (∀ s, cand.content = .text s → json.loads s = none →
      add_metadata_form asset cand = .error "Erro ao decodificar content") ∧
    (∀ nc f0 s, parse_new_content cand.content = .ok nc →
      findMatch (normalize_forms asset.formsOutput) cand.typeIdentifier
        = some f0 →
      f0.content = .text s → json.loads s = none →
      ∃ rev, add_metadata_form asset cand = .ok rev ∧
        findMatch rev.formsInput cand.typeIdentifier =
          some { f0 with
                 content := .text (json.dumps (dictMerge [] nc)) }) := by
  refine ⟨?_, ?_, ?_⟩
  · cases hc : cand.content with
    | dict m =>
      simp [add_metadata_form, parse_new_content, hc]
    | text s =>
      cases hl : json.loads s with
      | some m =>
        simp [add_metadata_form, parse_new_content, hc, hl]
      | none =>
        simp only [add_metadata_form, parse_new_content, hc, hl]
        constructor
        · intro _
          exact ⟨s, rfl, hl⟩
        · intro _
          exact ⟨"Erro ao decodificar content", rfl⟩
  · intro s hcs hl
    simp [add_metadata_form, parse_new_content, hcs, hl]
  · intro nc f0 s hparse hfind hf0 hl
    obtain ⟨h1, _h2, _h3, _h4⟩ :=
      upsert_of_some nc cand.typeIdentifier cand.formName _ f0 hfind
    refine ⟨_, add_metadata_form_ok asset cand nc hparse, ?_⟩
    show findMatch (merge_forms nc cand asset.formsOutput) _ = _
    rw [merge_forms_def, h1]
    unfold updated_form
    rw [hf0]
    simp [load_existing_content, hl]

/-- C4: whenever the normalized input form list has pairwise-distinct
type identifiers, the submitted form list does too, and its length is
the input length when a form matching the candidate's type identifier
exists and the input length plus one otherwise. -/
theorem C4_distinct_typeIdentifiers_preserved
    (asset : Asset) (cand : CandidateForm) (nc : JMap) (rev : Revision)
    (hparse : parse_new_content cand.content = .ok nc)
    (hnodup : ((normalize_forms asset.formsOutput).map
      Form.getTypeIdentifier).Nodup)
    (hrev : add_metadata_form asset cand = .ok rev) :
    (rev.formsInput.map Form.getTypeIdentifier).Nodup ∧
    rev.formsInput.length =
      (if (findMatch (normalize_forms asset.formsOutput)
          cand.typeIdentifier).isSome
       then asset.formsOutput.length
       else asset.formsOutput.length + 1) := by
  rw [add_metadata_form_ok asset cand nc hparse] at hrev
  cases hrev
  rw [merge_forms_def]
  have hlen : (normalize_forms asset.formsOutput).length
      = asset.formsOutput.length := List.length_map _ _
  cases hfind : findMatch (normalize_forms asset.formsOutput)
      cand.typeIdentifier with
  | some f0 =>
    obtain ⟨_h1, _h2, h3, h4⟩ :=
      upsert_of_some nc cand.typeIdentifier cand.formName _ f0 hfind
    refine ⟨?_, ?_⟩
    · rw [h4]; exact hnodup
    · simp [h3, hlen]
  | none =>
    have hup := upsert_of_none nc cand.typeIdentifier cand.formName _ hfind
    have hnotin : some cand.typeIdentifier ∉
        (normalize_forms asset.formsOutput).map Form.getTypeIdentifier := by
      intro hmem
      obtain ⟨f, hf, hft⟩ := List.mem_map.mp hmem
      have := List.find?_eq_none.mp hfind f hf
      simp [hft] at this
    refine ⟨?_, ?_⟩
    · rw [hup]
      simp only [List.map_append, List.map_cons, List.map_nil,
        inserted_form_getTypeIdentifier]
      rw [List.nodup_append]
      refine ⟨hnodup, List.nodup_singleton _, ?_⟩
      intro x hx
      simp only [List.mem_singleton]
      intro hxe
      exact hnotin (hxe ▸ hx)
    · simp [hup, hlen]

/-- C5: the merge is idempotent — applying the form-list
transformation of `add_metadata_form` with the same candidate to a
list that already resulted from it yields the same list, since the
candidate's keys overwrite their own values (the decoded candidate
content, a Python dict, has pairwise-distinct keys). -/
theorem C5_merge_idempotent (fs : List Form) (cand : CandidateForm) (nc : JMap)
    (_hparse : parse_new_content cand.content = .ok nc)
    (hnodup : (nc.map Prod.fst).Nodup) :
    merge_forms nc cand (merge_forms nc cand fs) = merge_forms nc cand fs := by
  rw [merge_forms_def nc cand (merge_forms nc cand fs), merge_forms_def]
  rw [normalize_forms_upsert]
  exact upsert_idem nc cand.typeIdentifier cand.formName hnodup _

/-! ### Concrete scenario witnesses for C1-C5 -/

/-- The spec's scenario form: `typeIdentifier` "ownership" with wire
content decoding to `owner = A`. -/
def ownershipForm : Form :=
  { formName := "ownership"
    typeKey := .typeIdentifier "ownership"
    content := .text (.enc [("owner", "A")]) }

/-- The spec's scenario asset. -/
def scenarioAsset : Asset :=
  { name := "tabela_clientes"
    description := some "descricao atual"
    formsOutput := [ownershipForm] }

/-- The spec's scenario candidate: content `owner = B, team = X`. -/
def scenarioCand : CandidateForm :=
  { formName := "ownership"
    typeIdentifier := "ownership"
    content := .dict [("owner", "B"), ("team", "X")] }

/-- The revision the scenario produces. -/
def scenarioRev : Revision :=
  { name := "tabela_clientes"
    formsInput := [{ formName := "ownership"
                     typeKey := .typeIdentifier "ownership"
                     content := .text (.enc [("owner", "B"), ("team", "X")]) }]
    description := "descricao atual" }

theorem C1_witness :
    ∃ rev, add_metadata_form scenarioAsset scenarioCand = .ok rev ∧
      countMatches rev.formsInput "ownership" = 1 ∧
      findMatch rev.formsInput "ownership" =
        some { formName := "ownership"
               typeKey := .typeIdentifier "ownership"
               content := .text (.enc [("owner", "B"), ("team", "X")]) } := by
  obtain ⟨rev, h1, h2, h3, _⟩ := C1_update_of_matching_form scenarioAsset
    scenarioCand [("owner", "B"), ("team", "X")] ownershipForm rfl rfl rfl
  exact ⟨rev, h1, h2, h3⟩

theorem C2_witness :
    scenarioRev.name = scenarioAsset.name ∧
    scenarioRev.description = "descricao atual" := by
  obtain ⟨h1, h2, _⟩ := C2_revision_preserves_name_and_description
    scenarioAsset scenarioCand scenarioRev rfl
  exact ⟨h1, h2 "descricao atual" rfl⟩

/-- An asset whose existing `ownership` form has undecodable content. -/
def badContentAsset : Asset :=
  { name := "tabela_falha"
    description := none
    formsOutput := [{ formName := "ownership"
                      typeKey := .typeIdentifier "ownership"
                      content := .text (.bad "nao e json") }] }

/-- A candidate whose content is text that fails to decode. -/
def badCand : CandidateForm :=
  { formName := "ownership"
    typeIdentifier := "ownership"
    content := .text (.bad "tambem nao e json") }

theorem C3_witness :
    add_metadata_form scenarioAsset badCand =
      .error "Erro ao decodificar content" ∧
    (∃ rev, add_metadata_form badContentAsset scenarioCand = .ok rev ∧
      findMatch rev.formsInput "ownership" =
        some { formName := "ownership"
               typeKey := .typeIdentifier "ownership"
               content := .text (.enc [("owner", "B"), ("team", "X")]) }) := by
  constructor
  · exact (C3_error_iff_candidate_decode_failure scenarioAsset badCand).2.1
      (.bad "tambem nao e json") rfl rfl
  · obtain ⟨rev, h1, h2⟩ :=
      (C3_error_iff_candidate_decode_failure badContentAsset scenarioCand).2.2
        [("owner", "B"), ("team", "X")]
        { formName := "ownership"
          typeKey := .typeIdentifier "ownership"
          content := .text (.bad "nao e json") }
        (.bad "nao e json") rfl rfl rfl rfl
    exact ⟨rev, h1, h2⟩

theorem C4_witness :
    (scenarioRev.formsInput.map Form.getTypeIdentifier).Nodup ∧
    scenarioRev.formsInput.length = 1 := by
  obtain ⟨h1, h2⟩ := C4_distinct_typeIdentifiers_preserved scenarioAsset
    scenarioCand [("owner", "B"), ("team", "X")] scenarioRev rfl
    (by decide) rfl
  exact ⟨h1, by rw [h2]; rfl⟩

theorem C5_witness :
    merge_forms [("owner", "B"), ("team", "X")] scenarioCand
      (merge_forms [("owner", "B"), ("team", "X")] scenarioCand
        [ownershipForm]) =
    merge_forms [("owner", "B"), ("team", "X")] scenarioCand
      [ownershipForm] :=
  C5_merge_idempotent [ownershipForm] scenarioCand
    [("owner", "B"), ("team", "X")] rfl (by decide)

/-! ### Claim theorems and witnesses for the lister, poller, glossary loader, backup and republisher -/
theorem map_congr_mem {α β : Type} (l : List α) (f g : α → β)
    (h : ∀ x ∈ l, f x = g x) : l.map f = l.map g := by
  induction l with
  | nil => rfl
  | cons x rest ih =>
    simp only [List.map_cons, h x (List.mem_cons_self x rest),
      ih (fun y hy => h y (List.mem_cons_of_mem x hy))]

theorem list_assets_ids_cons_ok (p : Page) (t : String)
    (ht : p.nextToken = some t) (rest : List (Except String Page)) :
    list_assets_ids (.ok p :: rest) =
      match list_assets_ids rest with
      | .error e => .error e
      | .ok more =>
        .ok (p.items.map (fun item => item.assetItem.identifier) ++ more) := by
  simp only [list_assets_ids, ht]

theorem list_assets_ids_last (p : Page) (hlast : p.nextToken = none)
    (rest : List (Except String Page)) :
    list_assets_ids (.ok p :: rest) =
      .ok (p.items.map (fun item => item.assetItem.identifier)) := by
  simp only [list_assets_ids, hlast]

theorem list_assets_ids_error_propagates (front : List Page)
    (hfront : ∀ p ∈ front, p.nextToken.isSome) (e : String)
    (rest : List (Except String Page)) :
    list_assets_ids (front.map Except.ok ++ .error e :: rest) = .error e := by
  induction front with
  | nil => rfl
  | cons p f ih =>
    obtain ⟨t, ht⟩ := Option.isSome_iff_exists.mp
      (hfront p (List.mem_cons_self p f))
    have ih2 := ih (fun q hq => hfront q (List.mem_cons_of_mem p hq))
    rw [List.map_cons, List.cons_append,
      list_assets_ids_cons_ok p t ht, ih2]

/-- C6 -/
theorem C6_pagination_accumulates_all_pages
    (front : List Page) (plast : Page)
    (hfront : ∀ p ∈ front, p.nextToken.isSome)
    (hlast : plast.nextToken = none) :
    (list_assets_ids ((front ++ [plast]).map Except.ok) =
      .ok (((front ++ [plast]).map
        (fun p => p.items.map (fun item => item.assetItem.identifier))).flatten)) ∧
    (∀ ids, list_assets_ids ((front ++ [plast]).map Except.ok) = .ok ids →
      ids.length = ((front ++ [plast]).map (fun p => p.items.length)).sum) ∧
    (∀ e rest, list_assets_ids
        (front.map Except.ok ++ .error e :: rest) = .error e) := by
  have hmain : list_assets_ids ((front ++ [plast]).map Except.ok) =
      .ok (((front ++ [plast]).map
        (fun p => p.items.map (fun item => item.assetItem.identifier))).flatten) := by
    induction front with
    | nil => simp [list_assets_ids_last plast hlast]
    | cons p f ih =>
      obtain ⟨t, ht⟩ := Option.isSome_iff_exists.mp
        (hfront p (List.mem_cons_self p f))
      have ih2 := ih (fun q hq => hfront q (List.mem_cons_of_mem p hq))
      rw [List.cons_append, List.map_cons,
        list_assets_ids_cons_ok p t ht, ih2]
      simp
  refine ⟨hmain, ?_, ?_⟩
  · intro ids hids
    rw [hmain] at hids
    cases hids
    rw [List.length_flatten, List.map_map]
    congr 1
    apply map_congr_mem
    intro p _
    simp
  · intro e rest
    exact list_assets_ids_error_propagates front hfront e rest



/-- A two-page listing for the witness. -/
def pageOne : Page :=
  { items := [⟨⟨"asset-1"⟩⟩, ⟨⟨"asset-2"⟩⟩], nextToken := some "t1" }

def pageTwo : Page :=
  { items := [⟨⟨"asset-3"⟩⟩], nextToken := none }

theorem C6_witness :
    list_assets_ids [.ok pageOne, .ok pageTwo] =
      .ok ["asset-1", "asset-2", "asset-3"] ∧
    list_assets_ids [.ok pageOne, .error "InternalServerException"] =
      .error "InternalServerException" := by
  obtain ⟨h1, _h2, h3⟩ := C6_pagination_accumulates_all_pages [pageOne] pageTwo
    (fun p hp => by rw [List.mem_singleton] at hp; subst hp; rfl) rfl
  exact ⟨h1, h3 "InternalServerException" []⟩

theorem aguardar_loop_active (poll : Nat → Except String (Option String)) :
    ∀ k fuel i, k < fuel → poll (i + k) = .ok (some "ACTIVE") →
    (∀ j, j < k → ∃ st, poll (i + j) = .ok st ∧ st ≠ some "ACTIVE" ∧
      terminal_failure st = false) →
    (aguardar_loop poll fuel i).1 = .ok true := by
  intro k
  induction k with
  | zero =>
    intro fuel i hk hact _
    cases fuel with
    | zero => omega
    | succ f =>
      rw [Nat.add_zero] at hact
      simp [aguardar_loop, hact]
  | succ k ih =>
    intro fuel i hk hact hpre
    cases fuel with
    | zero => omega
    | succ f =>
      obtain ⟨st, hp, hne, htf⟩ := hpre 0 (Nat.succ_pos k)
      rw [Nat.add_zero] at hp
      have hbeq : (st == some "ACTIVE") = false := by
        simp [hne]
      simp only [aguardar_loop, hp, hbeq, htf, Bool.false_eq_true, if_false]
      exact ih f (i + 1) (Nat.lt_of_succ_lt_succ hk)
        (by rw [Nat.add_assoc, Nat.add_comm 1 k]; exact hact)
        (fun j hj => by
          rw [Nat.add_assoc, Nat.add_comm 1 j]
          exact hpre (j + 1) (Nat.succ_lt_succ hj))

theorem aguardar_loop_nonterminal (poll : Nat → Except String (Option String)) :
    ∀ fuel i, (∀ k, k < fuel → ∃ st, poll (i + k) = .ok st ∧
      st ≠ some "ACTIVE" ∧ terminal_failure st = false) →
    (aguardar_loop poll fuel i).1 = .error timeout_message := by
  intro fuel
  induction fuel with
  | zero => intro i _; rfl
  | succ f ih =>
    intro i h
    obtain ⟨st, hp, hne, htf⟩ := h 0 (Nat.succ_pos f)
    rw [Nat.add_zero] at hp
    have hbeq : (st == some "ACTIVE") = false := by simp [hne]
    simp only [aguardar_loop, hp, hbeq, htf, Bool.false_eq_true, if_false]
    exact ih (i + 1) (fun k hk => by
      rw [Nat.add_assoc, Nat.add_comm 1 k]
      exact h (k + 1) (Nat.succ_lt_succ hk))

theorem aguardar_loop_failure (poll : Nat → Except String (Option String)) :
    ∀ k fuel i st, k < fuel → poll (i + k) = .ok st →
    terminal_failure st = true →
    (∀ j, j < k → ∃ stj, poll (i + j) = .ok stj ∧ stj ≠ some "ACTIVE" ∧
      terminal_failure stj = false) →
    aguardar_loop poll fuel i = (.error timeout_message, k + 1) := by
  intro k
  induction k with
  | zero =>
    intro fuel i st hk hp htf _
    cases fuel with
    | zero => omega
    | succ f =>
      rw [Nat.add_zero] at hp
      have hbeq : (st == some "ACTIVE") = false := by
        cases st with
        | none => rfl
        | some v =>
          simp only [terminal_failure, Bool.or_eq_true, beq_iff_eq] at htf
          rcases htf with h | h <;> simp [h]
      simp [aguardar_loop, hp, hbeq, htf]
  | succ k ih =>
    intro fuel i st hk hp htf hpre
    cases fuel with
    | zero => omega
    | succ f =>
      obtain ⟨st0, hp0, hne0, htf0⟩ := hpre 0 (Nat.succ_pos k)
      rw [Nat.add_zero] at hp0
      have hbeq0 : (st0 == some "ACTIVE") = false := by simp [hne0]
      have hrec := ih f (i + 1) st (Nat.lt_of_succ_lt_succ hk)
        (by rw [Nat.add_assoc, Nat.add_comm 1 k]; exact hp) htf
        (fun j hj => by
          rw [Nat.add_assoc, Nat.add_comm 1 j]
          exact hpre (j + 1) (Nat.succ_lt_succ hj))
      simp only [aguardar_loop, hp0, hbeq0, htf0, Bool.false_eq_true, if_false,
        hrec]



/-- C7 -/
theorem C7_polling_terminal_states
    (poll : Nat → Except String (Option String)) (timeout : Nat) :
    (∀ i, i < timeout → poll i = .ok (some "ACTIVE") →
      (∀ j, j < i → ∃ st, poll j = .ok st ∧ st ≠ some "ACTIVE" ∧
        terminal_failure st = false) →
      aguardar_changeset_completion poll timeout = .ok true) ∧
    ((∀ i, i < timeout → ∃ st, poll i = .ok st ∧ st ≠ some "ACTIVE" ∧
        terminal_failure st = false) →
      aguardar_changeset_completion poll timeout = .error timeout_message) ∧
    (∀ i st, i < timeout → poll i = .ok st → terminal_failure st = true →
      (∀ j, j < i → ∃ stj, poll j = .ok stj ∧ stj ≠ some "ACTIVE" ∧
        terminal_failure stj = false) →
      aguardar_changeset_completion poll timeout = .error timeout_message ∧
      aguardar_polls_issued poll timeout = i + 1) := by
  refine ⟨?_, ?_, ?_⟩
  · intro i hi hact hpre
    exact aguardar_loop_active poll i timeout 0 hi
      (by rw [Nat.zero_add]; exact hact)
      (fun j hj => by rw [Nat.zero_add]; exact hpre j hj)
  · intro h
    exact aguardar_loop_nonterminal poll timeout 0
      (fun k hk => by rw [Nat.zero_add]; exact h k hk)
  · intro i st hi hp htf hpre
    have h := aguardar_loop_failure poll i timeout 0 st hi
      (by rw [Nat.zero_add]; exact hp) htf
      (fun j hj => by rw [Nat.zero_add]; exact hpre j hj)
    constructor
    · show (aguardar_loop poll timeout 0).1 = _
      rw [h]
    · show (aguardar_loop poll timeout 0).2 = _
      rw [h]

/-- Poll sequence PENDING, then ACTIVE. -/
def pollPending : Nat → Except String (Option String) :=
  fun i => .ok (if i == 0 then some "PENDING" else some "ACTIVE")

/-- Poll sequence that fails immediately. -/
def pollFailed : Nat → Except String (Option String) :=
  fun _ => .ok (some "FAILED")

theorem C7_witness :
    aguardar_changeset_completion pollPending 300 = .ok true ∧
    aguardar_changeset_completion pollFailed 300 = .error timeout_message ∧
    aguardar_polls_issued pollFailed 300 = 1 := by
  obtain ⟨h1, _h2, h3⟩ := C7_polling_terminal_states pollPending 300
  obtain ⟨_g1, _g2, g3⟩ := C7_polling_terminal_states pollFailed 300
  have hone := h1 1 (by decide) rfl
    (fun j hj => by
      have hj0 : j = 0 := Nat.lt_one_iff.mp hj
      subst hj0
      exact ⟨some "PENDING", rfl, by decide, rfl⟩)
  have hfail := g3 0 (some "FAILED") (by decide) rfl rfl
    (fun j hj => absurd hj (Nat.not_lt_zero j))
  exact ⟨hone, hfail.1, hfail.2⟩



/-- C8 -/
theorem C8_conflict_reported_others_reraised (gname tname : String) :
    (add_glossary gname (.clientError "ConflictException") =
      .ok ("Glossario " ++ gname ++ " ja existe")) ∧
    (add_glossary_term tname (.clientError "ConflictException") =
      .ok ("Termo de negocio " ++ tname ++ " ja existe")) ∧
    (∀ code, code ≠ "ConflictException" →
      add_glossary gname (.clientError code) = .error code) ∧
    (∀ code, code ≠ "ConflictException" →
      add_glossary_term tname (.clientError code) = .error code) := by
  refine ⟨rfl, rfl, ?_, ?_⟩
  · intro code hne
    simp [add_glossary, hne]
  · intro code hne
    simp [add_glossary_term, hne]

theorem C8_witness :
    add_glossary "PII" (.clientError "ConflictException") =
      .ok ("Glossario " ++ "PII" ++ " ja existe") ∧
    add_glossary_term "PII" (.clientError "AccessDeniedException") =
      .error "AccessDeniedException" := by
  obtain ⟨h1, _h2, _h3, h4⟩ := C8_conflict_reported_others_reraised "PII" "PII"
  exact ⟨h1, h4 "AccessDeniedException" (by decide)⟩

theorem csv_columns_mem (rows : List JMap) (c : String) :
    c ∈ csv_columns rows ↔ ∃ row ∈ rows, ∃ v, (c, v) ∈ row := by
  have key : ∀ (rs : List JMap) (acc : List String),
      c ∈ rs.foldl (fun acc row =>
        acc ++ (row.map Prod.fst).filter (fun x => !acc.contains x)) acc ↔
      c ∈ acc ∨ ∃ row ∈ rs, c ∈ row.map Prod.fst := by
    intro rs
    induction rs with
    | nil => simp
    | cons r rest ih =>
      intro acc
      rw [List.foldl_cons, ih]
      constructor
      · rintro (hc | hr)
        · rw [List.mem_append] at hc
          rcases hc with hc | hc
          · exact Or.inl hc
          · exact Or.inr ⟨r, List.mem_cons_self r rest,
              (List.mem_filter.mp hc).1⟩
        · obtain ⟨row, hrow, hcrow⟩ := hr
          exact Or.inr ⟨row, List.mem_cons_of_mem r hrow, hcrow⟩
      · rintro (hc | ⟨row, hrow, hcrow⟩)
        · exact Or.inl (List.mem_append.mpr (Or.inl hc))
        · rcases List.mem_cons.mp hrow with hre | hrm
          · by_cases hacc : c ∈ acc
            · exact Or.inl (List.mem_append.mpr (Or.inl hacc))
            · refine Or.inl (List.mem_append.mpr (Or.inr ?_))
              rw [List.mem_filter]
              refine ⟨hre ▸ hcrow, ?_⟩
              simp [hacc]
          · exact Or.inr ⟨row, hrm, hcrow⟩
  rw [csv_columns, key rows []]
  simp only [List.not_mem_nil, false_or]
  constructor
  · rintro ⟨row, hrow, hc⟩
    obtain ⟨kv, hkv, hfst⟩ := List.mem_map.mp hc
    exact ⟨row, hrow, kv.2, by rw [← hfst]; exact hkv⟩
  · rintro ⟨row, hrow, v, hv⟩
    exact ⟨row, hrow, List.mem_map.mpr ⟨(c, v), hv, rfl⟩⟩



theorem backup_main_rows (assets : List Asset) (rows : List JMap)
    (hok : backup_main assets = .ok rows) :
    rows.length = assets.length ∧
    ∀ (i : Nat) (asset : Asset), assets[i]? = some asset →
      ∃ row, rows[i]? = some row ∧ create_metadata_df asset = .ok row := by
  induction assets generalizing rows with
  | nil =>
    cases hok
    exact ⟨rfl, fun i asset h => by simp at h⟩
  | cons a rest ih =>
    unfold backup_main at hok
    cases hdf : create_metadata_df a with
    | error e => rw [hdf] at hok; cases hok
    | ok row =>
      rw [hdf] at hok
      cases hrest : backup_main rest with
      | error e => rw [hrest] at hok; cases hok
      | ok rs =>
        rw [hrest] at hok
        cases hok
        obtain ⟨hlen, hget⟩ := ih rs hrest
        refine ⟨by simp [hlen], ?_⟩
        intro i asset hi
        cases i with
        | zero =>
          simp only [List.getElem?_cons_zero, Option.some.injEq] at hi
          subst hi
          exact ⟨row, by simp, hdf⟩
        | succ n =>
          simp only [List.getElem?_cons_succ] at hi ⊢
          exact hget n asset hi

/-- C9 -/
theorem C9_backup_emits_one_row_per_asset
    (assets : List Asset) (rows : List JMap)
    (hok : backup_main assets = .ok rows) :
    rows.length = assets.length ∧
    (∀ (i : Nat) (asset : Asset), assets[i]? = some asset →
      ∃ row, rows[i]? = some row ∧ create_metadata_df asset = .ok row) ∧
    (∀ asset form_name, asset ∈ assets →
      asset.formsOutput.filter (fun f => f.formName == form_name) = [] →
      filter_content_output asset form_name = .ok []) ∧
    (∀ c, c ∈ csv_columns rows ↔ ∃ row ∈ rows, ∃ v, (c, v) ∈ row) := by
  obtain ⟨h1, h2⟩ := backup_main_rows assets rows hok
  refine ⟨h1, h2, ?_, fun c => csv_columns_mem rows c⟩
  intro asset form_name _ hfil
  simp [filter_content_output, hfil]



/-- Backup witness asset carrying all three named forms. -/
def bkAsset1 : Asset :=
  { name := "t1", description := some "descricao um",
    formsOutput :=
      [⟨"seguranca_privacidade", .typeIdentifier "seguranca_privacidade",
        .text (.enc [("classificacao", "interna")])⟩,
       ⟨"dominio_de_dados", .typeIdentifier "dominio_de_dados",
        .text (.enc [("dominio", "vendas")])⟩,
       ⟨"GlueTableForm", .typeIdentifier "GlueTableForm",
        .text (.enc [("tableName", "tabela_um")])⟩] }

/-- Backup witness asset missing the `dominio_de_dados` form. -/
def bkAsset2 : Asset :=
  { name := "t2", description := none,
    formsOutput :=
      [⟨"seguranca_privacidade", .typeIdentifier "seguranca_privacidade",
        .text (.enc [("classificacao", "publica")])⟩,
       ⟨"GlueTableForm", .typeIdentifier "GlueTableForm",
        .text (.enc [("tableName", "tabela_dois")])⟩] }

def bkRow1 : JMap :=
  [("classificacao", "interna"), ("dominio", "vendas"),
   ("tableName", "tabela_um"), ("Descricao", "descricao um")]

def bkRow2 : JMap :=
  [("classificacao", "publica"), ("tableName", "tabela_dois"),
   ("Descricao", "")]

theorem C9_witness :
    [bkRow1, bkRow2].length = [bkAsset1, bkAsset2].length ∧
    filter_content_output bkAsset2 "dominio_de_dados" = .ok [] := by
  obtain ⟨h1, _h2, h3, _h4⟩ := C9_backup_emits_one_row_per_asset
    [bkAsset1, bkAsset2] [bkRow1, bkRow2] rfl
  exact ⟨h1, h3 bkAsset2 "dominio_de_dados"
    (List.mem_cons_of_mem _ (List.mem_cons_self _ _)) rfl⟩

/-- C10 -/
theorem C10_republisher_first_asset_published_twice (env : Nat → RepubEnv) :
    (republish_main [] env = .error "IndexError: list index out of range") ∧
    (∀ first rest,
      republish_main (first :: rest) env =
        .ok (first :: first :: rest,
          ((List.range (first :: rest).length).map
            (fun i => republicar_asset (env (i + 1)))).count true) ∧
      2 ≤ (first :: first :: rest).count first) ∧
    (∀ ids env2, (∀ n, 1 ≤ n → env2 n = env n) →
      republish_main ids env2 = republish_main ids env) := by
  refine ⟨rfl, ?_, ?_⟩
  · intro first rest
    refine ⟨rfl, ?_⟩
    simp only [List.count_cons_self]
    omega
  · intro ids env2 hagree
    cases ids with
    | nil => rfl
    | cons first rest =>
      unfold republish_main
      have : (List.range (first :: rest).length).map
          (fun i => republicar_asset (env2 (i + 1))) =
        (List.range (first :: rest).length).map
          (fun i => republicar_asset (env (i + 1))) :=
        map_congr_mem _ _ _ (fun i _ => by
          rw [hagree (i + 1) (Nat.le_add_left 1 i)])
      rw [this]

/-- A run where every changeset creation and poll succeeds. -/
def happyEnv : Nat → RepubEnv :=
  fun _ => { create_listing_change_set := .ok "changeset-1",
             poll := fun _ => .ok (some "ACTIVE") }

theorem C10_witness :
    republish_main [] happyEnv = .error "IndexError: list index out of range" ∧
    republish_main ["a", "b"] happyEnv = .ok (["a", "a", "b"], 2) := by
  obtain ⟨h1, h2, _h3⟩ := C10_republisher_first_asset_published_twice happyEnv
  exact ⟨h1, (h2 "a" ["b"]).1⟩

end Smus
